import Mathlib

/-!
Shallow embedding of the univariate KZG polynomial-commitment engine of
src/jellyfish/primitives/src/pcs/univariate_kzg/mod.rs.

Group model: the pairing groups G1, G2 and the target group are cyclic of
prime order r (the order of the scalar field Fr), so every group element is
determined by its discrete logarithm with respect to a fixed generator.  The
curve/pairing arithmetic is supplied by an external algebra library that the
spec places out of scope and assumes correct, so we represent a G1 or G2
element by its exponent in the scalar field F: scalar multiplication becomes
field multiplication, group addition becomes field addition, the pairing
e(a·G1, b·G2) becomes the product a*b, a product of pairings becomes a sum,
and the target-group identity becomes 0.  Affine/projective conversions are
identities in this model.

Polynomials (ark_poly::univariate::DensePolynomial) are coefficient lists,
lowest degree first; the DensePolynomial representation invariant is that the
last stored coefficient is nonzero (the zero polynomial stores no
coefficients), captured by the predicate Trimmed below.
-/

set_option linter.unusedSectionVars false
set_option linter.unusedVariables false

/-- The single error kind of the engine (PCSError::InvalidParameters). -/
inductive PCSError where
  | InvalidParameters : String → PCSError
  deriving DecidableEq

deriving instance DecidableEq for Except

/-- Prover key: the prefix of the SRS powers, powers_of_g[i] = τ^i·G
(stored as exponents). -/
structure UnivariateProverParam (F : Type) where
  powers_of_g : List F
  deriving DecidableEq

/-- Verifier key: the triple (g, h, beta_h) (stored as exponents). -/
structure UnivariateVerifierParam (F : Type) where
  g : F
  h : F
  beta_h : F
  deriving DecidableEq

/-- Modelled from the spec: the SRS type of the srs module
(pcs/univariate_kzg/srs.rs), which is not included under src/.  Per spec
section 3, the SRS holds the ordered sequence powers_of_g[0..=D] together with
the G2 generator h and its τ-scaled counterpart beta_h. -/
structure UnivariateUniversalParams (F : Type) where
  powers_of_g : List F
  h : F
  beta_h : F
  deriving DecidableEq

/-- Modelled from the spec: the deferred scalar-accumulation type
ScalarsAndBases of crate module scalars_n_bases, which is not included under
src/.  Per spec sections 3 and 9 it is an append-only collection of
(scalar, base) pairs with a push operation, a merge-with-scale operation and
one finalize-to-MSM operation; we store the pairs in arrival order (a list),
which produces the same multi-scalar-multiplication value as a base-keyed
map. -/
structure ScalarsAndBases (F : Type) where
  pairs : List (F × F)
  deriving DecidableEq

variable {F : Type} [Field F] [DecidableEq F]

/-- Horner evaluation of a coefficient list (DensePolynomial::evaluate). -/
def evalPoly : List F → F → F
  | [], _ => 0
  | a :: p, x => a + x * evalPoly p x

/-- DensePolynomial::degree under the representation invariant: the index of
the last stored coefficient (the zero polynomial has degree 0). -/
def degree (p : List F) : Nat := p.length - 1

/-- The DensePolynomial representation invariant: no trailing zero
coefficient is stored. -/
def Trimmed (p : List F) : Prop := p.getLast? ≠ some 0

instance (p : List F) : Decidable (Trimmed p) :=
  inferInstanceAs (Decidable (p.getLast? ≠ some 0))

/-- Leading (lowest-degree) zero-coefficient count
(skip_leading_zeros_and_convert_to_bigints). -/
def numLeadingZeros (p : List F) : Nat :=
  (p.takeWhile (fun a => decide (a = 0))).length

/-- ark_ec VariableBaseMSM::multi_scalar_mul: the scalar-weighted sum of the
bases; when the two slices have different lengths only the first
min(len, len) entries of each participate. -/
def multi_scalar_mul (bases scalars : List F) : F :=
  ((bases.zip scalars).map (fun q => q.2 * q.1)).sum

/-- jf_utils::multi_pairing: the product of pairings of paired-up entries of
the two slices, written additively in the exponent model. -/
def multi_pairing (g1 g2 : List F) : F :=
  ((g1.zip g2).map (fun q => q.1 * q.2)).sum

/-- PairingEngine::product_of_pairings in the exponent model. -/
def product_of_pairings (l : List (F × F)) : F :=
  (l.map (fun q => q.1 * q.2)).sum

/-- Modelled from the spec: gen_srs_for_testing of the missing srs module.
Per spec section 4.2 it draws a secret scalar τ and materializes
powers_of_g[i] = τ^i·G for i in 0..=supported_size plus h and beta_h = τ·h;
the secret draw is the parameter tau here. -/
def gen_srs_for_testing (tau : F) (supported_size : Nat) :
    UnivariateUniversalParams F :=
  { powers_of_g := (List.range (supported_size + 1)).map (fun i => tau ^ i)
    h := 1
    beta_h := tau }

/-- Modelled from the spec: trim of the missing srs module.  Per spec
section 4.2 it slices the first degree+1 elements of powers_of_g for the
ProverParam; the VerifierParam is the fixed triple (g, h, beta_h) regardless
of degree, and a target degree exceeding the SRS capacity is
InvalidParameters. -/
def trim (srs : UnivariateUniversalParams F) (supported_degree : Nat) :
    Except PCSError (UnivariateProverParam F × UnivariateVerifierParam F) :=
  if supported_degree + 1 > srs.powers_of_g.length then
    Except.error (PCSError.InvalidParameters
      "the supported degree exceeds the SRS capacity")
  else
    Except.ok
      ({ powers_of_g := srs.powers_of_g.take (supported_degree + 1) },
       { g := srs.powers_of_g.headD 0, h := srs.h, beta_h := srs.beta_h })

/-- UnivariateKzgPCS::commit: reject a polynomial whose degree exceeds the
stored power count, then skip the leading zero coefficients and take one MSM
against the correspondingly offset power slice. -/
def commit (prover_param : UnivariateProverParam F) (poly : List F) :
    Except PCSError F :=
  if degree poly > prover_param.powers_of_g.length then
    Except.error (PCSError.InvalidParameters
      ("poly degree " ++ toString (degree poly) ++ " is larger than allowed "
        ++ toString prover_param.powers_of_g.length))
  else
    let k := numLeadingZeros poly
    Except.ok (multi_scalar_mul (prover_param.powers_of_g.drop k) (poly.drop k))

/-- Quotient of the Euclidean division of p by the monic linear divisor
(X - z) (DensePolynomial division by from_coefficients_vec [-z, 1]); the
remainder p(z) is discarded by the caller. -/
def divByLinear : List F → F → List F
  | [], _ => []
  | [_], _ => []
  | _ :: b :: p, z => evalPoly (b :: p) z :: divByLinear (b :: p) z

/-- UnivariateKzgPCS::open: commit to the witness polynomial p/(X - z) with
the same leading-zero skipping MSM, and return it with the direct evaluation
p(point). -/
def pcsOpen (prover_param : UnivariateProverParam F) (polynomial : List F)
    (point : F) : Except PCSError (F × F) :=
  let witness_polynomial := divByLinear polynomial point
  let k := numLeadingZeros witness_polynomial
  let proof := multi_scalar_mul (prover_param.powers_of_g.drop k)
    (witness_polynomial.drop k)
  Except.ok (proof, evalPoly polynomial point)

/-- UnivariateKzgPCS::verify: the two-pairing product check
e(v·g - z·W - C, h) · e(W, beta_h) = 1 in the exponent model. -/
def verify (verifier_param : UnivariateVerifierParam F) (commitment : F)
    (point value proof : F) : Except PCSError Bool :=
  Except.ok (decide (product_of_pairings
    [(value * verifier_param.g - point * proof - commitment, verifier_param.h),
     (proof, verifier_param.beta_h)] = 0))

/-- The pairing identity exactly as the spec's section 4.5 words it:
e(C − v·g − z·W, h) · e(W, beta_h) = 1.  This definition follows the spec's
words (not the source) so that the claim about verify can be compared against
the implementation. -/
def specVerifyIdentity (verifier_param : UnivariateVerifierParam F)
    (commitment : F) (point value proof : F) : Prop :=
  product_of_pairings
    [(commitment - value * verifier_param.g - point * proof, verifier_param.h),
     (proof, verifier_param.beta_h)] = 0

instance (vp : UnivariateVerifierParam F) (C z v W : F) :
    Decidable (specVerifyIdentity vp C z v W) :=
  inferInstanceAs (Decidable (product_of_pairings
    [(C - v * vp.g - z * W, vp.h), (W, vp.beta_h)] = 0))

instance : Fact (Nat.Prime 101) := ⟨by norm_num⟩

/-! ### Batch commit / open -/

/-- UnivariateKzgPCS::batch_commit: commit to each polynomial, collecting
results in input order and stopping at the first error. -/
def batch_commit (prover_param : UnivariateProverParam F) :
    List (List F) → Except PCSError (List F)
  | [] => Except.ok []
  | poly :: polys =>
    match commit prover_param poly, batch_commit prover_param polys with
    | Except.ok c, Except.ok cs => Except.ok (c :: cs)
    | Except.error e, _ => Except.error e
    | Except.ok _, Except.error e => Except.error e

/-- The per-pair loop of UnivariateKzgPCS::batch_open: open each
(polynomial, point) pair in input order, pushing the proof and evaluation. -/
def batchOpenLoop (prover_param : UnivariateProverParam F) :
    List (List F × F) → Except PCSError (List F × List F)
  | [] => Except.ok ([], [])
  | (poly, pt) :: rest =>
    match pcsOpen prover_param poly pt with
    | Except.error e => Except.error e
    | Except.ok (w, v) =>
      match batchOpenLoop prover_param rest with
      | Except.error e => Except.error e
      | Except.ok (ws, vs) => Except.ok (w :: ws, v :: vs)

/-- UnivariateKzgPCS::batch_open: fail if the polynomial and point lists
differ in length, otherwise open each pair in order; the multi_commitment
argument is never read. -/
def batch_open (prover_param : UnivariateProverParam F)
    (multi_commitment : List F) (polynomials : List (List F))
    (points : List F) : Except PCSError (List F × List F) :=
  if polynomials.length ≠ points.length then
    Except.error (PCSError.InvalidParameters
      ("poly length " ++ toString polynomials.length
        ++ " is different from points length " ++ toString points.length))
  else
    batchOpenLoop prover_param (polynomials.zip points)

/-! ### Batch verify -/

/-- The mutable state of the batch_verify combination loop. -/
structure BvState (F : Type) where
  total_c : F
  total_w : F
  g_multiplier : F
  randomizer : F
  deriving DecidableEq

/-- Four-way zip, the shape of the statement iterator
multi_commitment.iter().zip(points).zip(values).zip(batch_proof): it stops at
the shortest of the four lists. -/
def zip4 {α β γ δ : Type} : List α → List β → List γ → List δ →
    List (α × β × γ × δ)
  | a :: as, b :: bs, c :: cs, d :: ds => (a, b, c, d) :: zip4 as bs cs ds
  | _, _, _, _ => []

/-- The combination loop of batch_verify: for each statement (c, z, v, w),
accumulate total_c += (w·z + c)·r, total_w += w·r, g_multiplier += r·v with
the current randomizer r, then draw the next randomizer from the stream,
failing with InvalidParameters if it is exhausted.  Returns the final state
and the unconsumed rest of the stream. -/
def bvLoop : List (F × F × F × F) → List F → BvState F →
    Except PCSError (BvState F × List F)
  | [], rs, st => Except.ok (st, rs)
  | _ :: _, [], _ =>
    Except.error (PCSError.InvalidParameters
      "Insufficient randomizers provided")
  | (c, z, v, w) :: stmts, r :: rs, st =>
    bvLoop stmts rs
      { total_c := st.total_c + (w * z + c) * st.randomizer
        total_w := st.total_w + w * st.randomizer
        g_multiplier := st.g_multiplier + st.randomizer * v
        randomizer := r }

/-- UnivariateKzgPCS::batch_verify: random-linear-combination batching of n
statements into the 2-pairing product
e(−total_w, beta_h)·e(total_c − g_multiplier·g, h) = 1. -/
def batch_verify (verifier_param : UnivariateVerifierParam F)
    (multi_commitment : List F) (points values : List F)
    (batch_proof : List F) (randomizers : List F) : Except PCSError Bool :=
  match bvLoop (zip4 multi_commitment points values batch_proof) randomizers
      ⟨0, 0, 0, 1⟩ with
  | Except.error e => Except.error e
  | Except.ok (st, _) =>
    Except.ok (decide (multi_pairing
      [-st.total_w, st.total_c - verifier_param.g * st.g_multiplier]
      [verifier_param.beta_h, verifier_param.h] = 0))

/-- The total_c contribution of the statements, weighted by the randomizer
list: Σ (wᵢ·zᵢ + cᵢ)·rᵢ over paired-up entries. -/
def csum : List (F × F × F × F) → List F → F
  | (c, z, _, w) :: ss, r :: rr => (w * z + c) * r + csum ss rr
  | _, _ => 0

/-- The total_w contribution: Σ wᵢ·rᵢ over paired-up entries. -/
def wsum : List (F × F × F × F) → List F → F
  | (_, _, _, w) :: ss, r :: rr => w * r + wsum ss rr
  | _, _ => 0

/-- The g_multiplier contribution: Σ rᵢ·vᵢ over paired-up entries. -/
def vsum : List (F × F × F × F) → List F → F
  | (_, _, v, _) :: ss, r :: rr => r * v + vsum ss rr
  | _, _ => 0

/-! ### Aggregated (pipelined) batch verify -/

/-- The usize modulus of the 64-bit targets the crate builds for. -/
def usizeModulus : Nat := 2 ^ 64

/-- Rust usize subtraction with release-build semantics: on underflow the
value wraps modulo 2^64 (a debug build would abort instead; either way the
source expression seq_len - 1 does not yield a usable count when
seq_len = 0). -/
def usizeSub (a b : Nat) : Nat :=
  if b ≤ a then a - b else (a + usizeModulus - b) % usizeModulus

/-- The value of one multi-scalar multiplication over a list of
(scalar, base) pairs. -/
def pairSum (l : List (F × F)) : F := (l.map (fun q => q.1 * q.2)).sum

/-- Modelled from the spec: ScalarsAndBases::push appends one
(scalar, base) contribution. -/
def ScalarsAndBases.push (sb : ScalarsAndBases F) (scalar base : F) :
    ScalarsAndBases F :=
  ⟨sb.pairs ++ [(scalar, base)]⟩

/-- Modelled from the spec: ScalarsAndBases::merge folds in another
accumulator's contributions pre-scaled by the caller scalar. -/
def ScalarsAndBases.merge (sb : ScalarsAndBases F) (r : F)
    (other : ScalarsAndBases F) : ScalarsAndBases F :=
  ⟨sb.pairs ++ other.pairs.map (fun q => (r * q.1, q.2))⟩

/-- Modelled from the spec: ScalarsAndBases::multi_scalar_mul collapses the
accumulated contributions with one MSM. -/
def ScalarsAndBases.multi_scalar_mul (sb : ScalarsAndBases F) : F :=
  pairSum sb.pairs

/-- Three-way zip, stopping at the shortest list. -/
def zip3 {α β γ : Type} : List α → List β → List γ → List (α × β × γ)
  | a :: as, b :: bs, c :: cs => (a, b, c) :: zip3 as bs cs
  | _, _, _ => []

/-- The contributions pushed for one pipeline of the total_w accumulator of
batch_verify_aggregated: (r·combiner, proof) per item. -/
def bvaProofPairs (randomizers proofs combiners : List F) : List (F × F) :=
  (zip3 proofs combiners randomizers).map (fun t => (t.2.2 * t.2.1, t.1))

/-- The contributions pushed for one pipeline of the total_c accumulator:
(r·combiner·point, proof) per item. -/
def bvaPointPairs (randomizers points proofs combiners : List F) :
    List (F × F) :=
  (zip4 points proofs combiners randomizers).map
    (fun q => (q.2.2.2 * q.2.2.1 * q.1, q.2.1))

/-- The contributions merged into the total_c accumulator from the
commitment accumulators, each pre-scaled by its randomizer. -/
def bvaMergePairs (randomizers : List F)
    (multi_commitment : List (ScalarsAndBases F)) : List (F × F) :=
  ((multi_commitment.zip randomizers).map
    (fun cr => cr.1.pairs.map (fun q => (cr.2 * q.1, q.2)))).flatten

/-- The randomizer-weighted sum of the claimed evaluations. -/
def bvaSumEvals (randomizers values : List F) : F :=
  ((values.zip randomizers).map (fun q => q.1 * q.2)).sum

/-- UnivariateKzgPCS::batch_verify_aggregated.  The ARITY pipelines are the
entries of the equal-length lists points, batch_proof and combiners (the
source fixes their common length with a const-generic array).  The
randomizer sequence is materialized as 1 followed by seq_len - 1 values taken
from the caller's stream, where seq_len - 1 is the wrapping usize
subtraction of the source; a materialized length different from seq_len is
InvalidParameters.  Both pairing-side accumulators collapse through one MSM
each, and the final check is the 2-pairing product against the target-group
identity. -/
def batch_verify_aggregated (verifier_param : UnivariateVerifierParam F)
    (multi_commitment : List (ScalarsAndBases F))
    (points : List (List F)) (values : List F)
    (batch_proof : List (List F)) (combiners : List (List F))
    (randomizers : List F) : Except PCSError Bool :=
  let seq_len := values.length
  let rands : List F := 1 :: randomizers.take (usizeSub seq_len 1)
  if rands.length ≠ seq_len then
    Except.error (PCSError.InvalidParameters
      "Insufficient randomizers provided")
  else
    let inners1 : ScalarsAndBases F :=
      ⟨((batch_proof.zip combiners).map
        (fun pc => bvaProofPairs rands pc.1 pc.2)).flatten⟩
    let inner1 := inners1.multi_scalar_mul
    let inners2 : ScalarsAndBases F :=
      ⟨bvaMergePairs rands multi_commitment
        ++ ((zip3 points batch_proof combiners).map
            (fun t => bvaPointPairs rands t.1 t.2.1 t.2.2)).flatten
        ++ [(-(bvaSumEvals rands values), verifier_param.g)]⟩
    let inner2 := inners2.multi_scalar_mul
    Except.ok (decide (multi_pairing [inner1, -inner2]
      [verifier_param.beta_h, verifier_param.h] = 0))

/-! ### Lemmas and claim theorems -/

/-- Euclidean division by (X - z): evaluating p equals evaluating the
quotient times (t - z) plus the remainder p(z). -/
theorem divByLinear_eval (p : List F) (z t : F) :
    evalPoly p t = evalPoly (divByLinear p z) t * (t - z) + evalPoly p z := by
  induction p with
  | nil => simp [divByLinear, evalPoly]
  | cons a p ih =>
    cases p with
    | nil => simp [divByLinear, evalPoly]
    | cons b q =>
      simp only [divByLinear, evalPoly] at *
      rw [ih]
      ring

/-- Skipping the leading zero coefficients and offsetting the bases by the
same amount leaves the MSM value unchanged. -/
theorem numLeadingZeros_cons_zero (p : List F) :
    numLeadingZeros ((0 : F) :: p) = numLeadingZeros p + 1 := by
  simp [numLeadingZeros, List.takeWhile]

theorem numLeadingZeros_cons_ne (a : F) (p : List F) (ha : a ≠ 0) :
    numLeadingZeros (a :: p) = 0 := by
  simp [numLeadingZeros, List.takeWhile, ha]

theorem msm_drop_leading (p : List F) :
    ∀ bases : List F,
      multi_scalar_mul (bases.drop (numLeadingZeros p))
        (p.drop (numLeadingZeros p)) = multi_scalar_mul bases p := by
  induction p with
  | nil => intro bases; simp [numLeadingZeros]
  | cons a p ih =>
    intro bases
    by_cases ha : a = 0
    · subst ha
      rw [numLeadingZeros_cons_zero]
      cases bases with
      | nil =>
        simp [multi_scalar_mul]
      | cons b bs =>
        simp only [List.drop_succ_cons]
        rw [ih bs]
        simp [multi_scalar_mul]
    · rw [numLeadingZeros_cons_ne a p ha]
      simp

/-- An MSM of a coefficient list against consecutive powers of τ offset by
off is τ^off times the Horner evaluation at τ. -/
theorem msm_powers_aux (tau : F) (p : List F) :
    ∀ (m off : Nat), p.length ≤ m →
      multi_scalar_mul ((List.range m).map (fun i => tau ^ (i + off))) p
        = tau ^ off * evalPoly p tau := by
  induction p with
  | nil => intro m off _; simp [multi_scalar_mul, evalPoly]
  | cons a p ih =>
    intro m off hm
    cases m with
    | zero => simp at hm
    | succ m =>
      rw [List.range_succ_eq_map]
      have hc : ((fun i => tau ^ (i + off)) ∘ Nat.succ)
          = fun i => tau ^ (i + (off + 1)) := by
        funext i
        simp only [Function.comp_apply]
        congr 1
        omega
      simp only [List.map_cons, List.map_map, hc, Nat.zero_add]
      have ht := ih m (off + 1) (by simp only [List.length_cons] at hm; omega)
      simp only [multi_scalar_mul, List.zip_cons_cons, List.map_cons,
        List.sum_cons] at ht ⊢
      rw [ht]
      rw [pow_succ]
      simp [evalPoly]
      ring

/-- An MSM of a coefficient list against the powers 1, τ, τ², … is the
Horner evaluation at τ. -/
theorem msm_powers (tau : F) (p : List F) (m : Nat) (hm : p.length ≤ m) :
    multi_scalar_mul ((List.range m).map (fun i => tau ^ i)) p
      = evalPoly p tau := by
  have h := msm_powers_aux tau p m 0 hm
  simp only [Nat.add_zero, pow_zero, one_mul] at h
  exact h

theorem divByLinear_length (p : List F) (z : F) :
    (divByLinear p z).length = p.length - 1 := by
  induction p with
  | nil => simp [divByLinear]
  | cons a p ih =>
    cases p with
    | nil => simp [divByLinear]
    | cons b q => simp [divByLinear] at ih ⊢; omega

/-- Trimming a testing SRS generated from secret τ to degree d yields the
first d+1 powers of τ as the prover key and the triple (g, h, τ·h) as the
verifier key. -/
theorem trim_gen_srs (tau : F) (D d : Nat) (hdD : d ≤ D) :
    trim (gen_srs_for_testing tau D) d =
      Except.ok (⟨(List.range (d + 1)).map (fun i => tau ^ i)⟩,
        ⟨1, 1, tau⟩) := by
  have h1 : ((List.range (D + 1)).map (fun i => tau ^ i)).take (d + 1)
      = (List.range (d + 1)).map (fun i => tau ^ i) := by
    rw [← List.map_take, List.take_range, Nat.min_eq_left (by omega)]
  have h2 : ((List.range (D + 1)).map (fun i => tau ^ i)).headD 0 = 1 := by
    rw [List.range_succ_eq_map]
    simp
  simp only [trim, gen_srs_for_testing, List.length_map, List.length_range]
  rw [if_neg (by omega)]
  rw [h1, h2]

/-- Committing against the first m powers of τ yields the evaluation of the
polynomial at the secret τ (in the exponent), for any polynomial with at most
m stored coefficients. -/
theorem commit_eval (tau : F) (m : Nat) (p : List F) (hm : p.length ≤ m)
    (hd : degree p ≤ m) :
    commit ⟨(List.range m).map (fun i => tau ^ i)⟩ p
      = Except.ok (evalPoly p tau) := by
  simp only [commit, List.length_map, List.length_range]
  rw [if_neg (by omega)]
  rw [msm_drop_leading, msm_powers tau p m hm]

/-- Opening against the first m powers of τ yields the witness-polynomial
evaluation at τ as the proof and the direct evaluation at the point as the
value. -/
theorem pcsOpen_eval (tau : F) (m : Nat) (p : List F) (z : F)
    (hm : p.length ≤ m) :
    pcsOpen ⟨(List.range m).map (fun i => tau ^ i)⟩ p z
      = Except.ok (evalPoly (divByLinear p z) tau, evalPoly p z) := by
  have hw : (divByLinear p z).length ≤ m := by
    rw [divByLinear_length]
    omega
  simp only [pcsOpen]
  rw [msm_drop_leading, msm_powers tau (divByLinear p z) m hw]

/-- C1: from any prover/verifier key pair trimmed from one testing SRS to a
supported degree d, commit succeeds on every polynomial of degree at most d
(producing the evaluation of p at the secret τ, in the exponent), open
succeeds producing the witness-polynomial commitment and the direct
evaluation p(z), and verify accepts the resulting statement. -/
theorem kzg_round_trip (tau : F) (D d : Nat) (hdD : d ≤ D)
    (pp : UnivariateProverParam F) (vp : UnivariateVerifierParam F)
    (htrim : trim (gen_srs_for_testing tau D) d = Except.ok (pp, vp))
    (p : List F) (hp : Trimmed p) (hdeg : degree p ≤ d) (z : F) :
    commit pp p = Except.ok (evalPoly p tau) ∧
    pcsOpen pp p z
      = Except.ok (evalPoly (divByLinear p z) tau, evalPoly p z) ∧
    verify vp (evalPoly p tau) z (evalPoly p z)
        (evalPoly (divByLinear p z) tau) = Except.ok true := by
  rw [trim_gen_srs tau D d hdD] at htrim
  simp only [Except.ok.injEq, Prod.mk.injEq] at htrim
  obtain ⟨hpp, hvp⟩ := htrim
  subst hpp
  subst hvp
  have hm : p.length ≤ d + 1 := by
    unfold degree at hdeg
    omega
  refine ⟨commit_eval tau (d + 1) p hm (by omega),
    pcsOpen_eval tau (d + 1) p z hm, ?_⟩
  simp only [verify, product_of_pairings, List.map_cons, List.map_nil,
    List.sum_cons, List.sum_nil, Except.ok.injEq, decide_eq_true_eq]
  linear_combination (-1 : F) * divByLinear_eval p z tau

/-- Witness for C1 at the spec's concrete scenario: p = 1 + 2X + 3X² + 4X³
over the scalar field modelled as ZMod 101, SRS secret τ = 2 trimmed to
degree 3, opening point z = 5. -/
theorem kzg_round_trip_witness :
    commit (F := ZMod 101) ⟨[1, 2, 4, 8]⟩ [1, 2, 3, 4]
        = Except.ok (evalPoly [1, 2, 3, 4] (2 : ZMod 101)) ∧
    pcsOpen (F := ZMod 101) ⟨[1, 2, 4, 8]⟩ [1, 2, 3, 4] 5
        = Except.ok (evalPoly (divByLinear [1, 2, 3, 4] (5 : ZMod 101)) 2,
            evalPoly [1, 2, 3, 4] (5 : ZMod 101)) ∧
    verify (F := ZMod 101) ⟨1, 1, 2⟩ (evalPoly [1, 2, 3, 4] (2 : ZMod 101)) 5
        (evalPoly [1, 2, 3, 4] (5 : ZMod 101))
        (evalPoly (divByLinear [1, 2, 3, 4] (5 : ZMod 101)) 2)
      = Except.ok true :=
  kzg_round_trip 2 3 3 (by decide) ⟨[1, 2, 4, 8]⟩ ⟨1, 1, 2⟩ (by decide)
    [1, 2, 3, 4] (by decide) (by decide) 5

/-- C2 counterexample: the code's verify accepts (returns Ok(true)) a
statement on which the spec's written pairing identity
e(C − v·g − z·W, h)·e(W, beta_h) = 1 fails, over ZMod 101 with the verifier
key (g, h, beta_h) = (1, 1, 2), C = 1, z = 1, v = 0, W = 1; the identity the
code enforces has the opposite sign on the first pairing slot. -/
theorem kzg_verify_identity_counterexample :
    verify (F := ZMod 101) ⟨1, 1, 2⟩ 1 1 0 1 = Except.ok true ∧
      ¬ specVerifyIdentity (F := ZMod 101) ⟨1, 1, 2⟩ 1 1 0 1 := by
  decide

/-- C2 amended: verify always returns Ok (never an error), and the returned
boolean is true exactly when the pairing identity
e(v·g − z·W − C, h) · e(W, beta_h) = 1 holds (equivalently,
e(C − v·g, h) = e(W, beta_h − z·h)). -/
theorem kzg_verify_pairing_check (vp : UnivariateVerifierParam F)
    (C z v W : F) :
    ∃ b, verify vp C z v W = Except.ok b ∧
      (b = true ↔ (v * vp.g - z * W - C) * vp.h + W * vp.beta_h = 0) := by
  refine ⟨_, rfl, ?_⟩
  simp [product_of_pairings]

/-- C4: commit's degree guard compares the polynomial degree against the
power count d+1 instead of d, so a polynomial of degree exactly d succeeds
(first conjunct, d = 1, τ = 5, p = X committing to τ = 5), but a polynomial
of degree d+1 = 2 is also accepted instead of failing with
InvalidParameters, and the MSM silently drops the top coefficient: X² commits
to 0 rather than either an error or τ² = 25. -/
theorem kzg_commit_degree_boundary_bug :
    degree (F := ZMod 101) [0, 1] = 1 ∧
    commit (F := ZMod 101) ⟨[1, 5]⟩ [0, 1] = Except.ok 5 ∧
    degree (F := ZMod 101) [0, 0, 1] = 2 ∧
    commit (F := ZMod 101) ⟨[1, 5]⟩ [0, 0, 1] = Except.ok 0 := by
  decide

/-- When the stream holds at least as many randomizers as there are
statements, the combination loop succeeds; the accumulators grow by the
randomizer-weighted sums taken against the current randomizer followed by the
stream, the final randomizer is the last one drawn, and exactly one
randomizer per statement is consumed. -/
theorem bvLoop_ok (ss : List (F × F × F × F)) :
    ∀ (rs : List F) (st : BvState F), ss.length ≤ rs.length →
      bvLoop ss rs st = Except.ok
        ({ total_c := st.total_c + csum ss (st.randomizer :: rs)
           total_w := st.total_w + wsum ss (st.randomizer :: rs)
           g_multiplier := st.g_multiplier + vsum ss (st.randomizer :: rs)
           randomizer := (st.randomizer :: rs).getD ss.length 0 },
         rs.drop ss.length) := by
  induction ss with
  | nil =>
    intro rs st h
    cases st
    simp [bvLoop, csum, wsum, vsum]
  | cons s ss ih =>
    obtain ⟨c, z, v, w⟩ := s
    intro rs st h
    cases rs with
    | nil => simp at h
    | cons r rs =>
      simp only [bvLoop]
      rw [ih rs _ (by simp only [List.length_cons] at h; omega)]
      simp only [csum, wsum, vsum, List.length_cons, List.getD_cons_succ,
        List.drop_succ_cons, add_assoc]

/-- When the stream holds fewer randomizers than there are statements, the
combination loop fails with InvalidParameters. -/
theorem bvLoop_err (ss : List (F × F × F × F)) :
    ∀ (rs : List F) (st : BvState F), rs.length < ss.length →
      bvLoop ss rs st = Except.error (PCSError.InvalidParameters
        "Insufficient randomizers provided") := by
  induction ss with
  | nil => intro rs st h; simp at h
  | cons s ss ih =>
    obtain ⟨c, z, v, w⟩ := s
    intro rs st h
    cases rs with
    | nil => simp [bvLoop]
    | cons r rs =>
      simp only [bvLoop]
      exact ih rs _ (by simp only [List.length_cons] at h; omega)

theorem zip4_length {α β γ δ : Type} (as : List α) :
    ∀ (bs : List β) (cs : List γ) (ds : List δ),
      (zip4 as bs cs ds).length
        = min (min as.length bs.length) (min cs.length ds.length) := by
  induction as with
  | nil => intro bs cs ds; simp [zip4]
  | cons a as ih =>
    intro bs cs ds
    cases bs with
    | nil => simp [zip4]
    | cons b bs =>
      cases cs with
      | nil => simp [zip4]
      | cons c cs =>
        cases ds with
        | nil => simp [zip4]
        | cons d ds =>
          simp only [zip4, List.length_cons, ih]
          omega

theorem zip4_take {α β γ δ : Type} (as : List α) :
    ∀ (bs : List β) (cs : List γ) (ds : List δ) (k : Nat),
      min (min as.length bs.length) (min cs.length ds.length) ≤ k →
      zip4 (as.take k) (bs.take k) (cs.take k) (ds.take k) = zip4 as bs cs ds := by
  induction as with
  | nil => intro bs cs ds k h; simp [zip4]
  | cons a as ih =>
    intro bs cs ds k h
    cases bs with
    | nil => simp [zip4]
    | cons b bs =>
      cases cs with
      | nil => simp [zip4]
      | cons c cs =>
        cases ds with
        | nil => simp [zip4]
        | cons d ds =>
          cases k with
          | zero => simp only [List.length_cons] at h; omega
          | succ k =>
            simp only [List.take_succ_cons, zip4, List.length_cons] at h ⊢
            rw [ih bs cs ds k (by omega)]

/-- C9: batch_verify never fails on account of a length mismatch between the
four statement lists: it iterates over their element-wise zip, so its result
is identical to calling it on the four lists truncated to the shortest
length; the surplus entries of the longer lists are ignored. -/
theorem kzg_batch_verify_zip_truncation (vp : UnivariateVerifierParam F)
    (cs zs vs ws rs : List F) :
    batch_verify vp cs zs vs ws rs =
      batch_verify vp
        (cs.take (min (min cs.length zs.length) (min vs.length ws.length)))
        (zs.take (min (min cs.length zs.length) (min vs.length ws.length)))
        (vs.take (min (min cs.length zs.length) (min vs.length ws.length)))
        (ws.take (min (min cs.length zs.length) (min vs.length ws.length)))
        rs := by
  unfold batch_verify
  rw [zip4_take cs zs vs ws _ (le_refl _)]

/-- C10: on four empty statement lists, batch_verify returns Ok(true) for
every verifier key and every randomizer stream; the combination loop runs
zero times and consumes nothing from the stream (second conjunct: the loop
returns the initial state with the stream untouched), and the final pairing
product is the identity. -/
theorem kzg_batch_verify_empty (vp : UnivariateVerifierParam F)
    (rs : List F) :
    batch_verify vp [] [] [] [] rs = Except.ok true ∧
    bvLoop ([] : List (F × F × F × F)) rs ⟨0, 0, 0, 1⟩
      = Except.ok (⟨0, 0, 0, 1⟩, rs) := by
  constructor
  · simp [batch_verify, zip4, bvLoop, multi_pairing]
  · rfl

/-- C5: on n equal-length statement lists, batch_verify fails with
InvalidParameters exactly when the randomizer stream holds fewer than n
values (the loop draws one per statement), and returns Ok of some boolean
whenever the stream holds at least n values. -/
theorem kzg_randomizer_exhaustion (vp : UnivariateVerifierParam F)
    (cs zs vs ws rs : List F) (n : Nat)
    (h1 : cs.length = n) (h2 : zs.length = n) (h3 : vs.length = n)
    (h4 : ws.length = n) :
    (rs.length < n → batch_verify vp cs zs vs ws rs
        = Except.error (PCSError.InvalidParameters
            "Insufficient randomizers provided")) ∧
    (n ≤ rs.length → ∃ b, batch_verify vp cs zs vs ws rs = Except.ok b) := by
  have hlen : (zip4 cs zs vs ws).length = n := by
    rw [zip4_length]
    omega
  constructor
  · intro h
    unfold batch_verify
    rw [bvLoop_err (zip4 cs zs vs ws) rs ⟨0, 0, 0, 1⟩ (by omega)]
  · intro h
    unfold batch_verify
    rw [bvLoop_ok (zip4 cs zs vs ws) rs ⟨0, 0, 0, 1⟩ (by omega)]
    exact ⟨_, rfl⟩

/-- Witness for C5: one statement and an empty randomizer stream is refused
with InvalidParameters. -/
theorem kzg_randomizer_exhaustion_witness :
    batch_verify (F := ZMod 101) ⟨1, 1, 2⟩ [0] [0] [0] [0] []
      = Except.error (PCSError.InvalidParameters
          "Insufficient randomizers provided") :=
  (kzg_randomizer_exhaustion ⟨1, 1, 2⟩ [0] [0] [0] [0] [] 1
    (by decide) (by decide) (by decide) (by decide)).1 (by decide)

theorem zip_getD {α β : Type} (l1 : List α) :
    ∀ (l2 : List β) (i : Nat) (da : α) (db : β),
      i < l1.length → i < l2.length →
      (l1.zip l2).getD i (da, db) = (l1.getD i da, l2.getD i db) := by
  induction l1 with
  | nil => intro l2 i da db h1 h2; simp at h1
  | cons a l1 ih =>
    intro l2 i da db h1 h2
    cases l2 with
    | nil => simp at h2
    | cons b l2 =>
      cases i with
      | zero => simp
      | succ i =>
        simp only [List.zip_cons_cons, List.getD_cons_succ]
        exact ih l2 i da db (by simp only [List.length_cons] at h1; omega)
          (by simp only [List.length_cons] at h2; omega)

/-- The batch_open loop always succeeds (the single open operation has no
failure path), returns one proof and one evaluation per input pair, and its
i-th outputs are exactly the outputs of open on the i-th pair. -/
theorem batchOpenLoop_spec (pp : UnivariateProverParam F)
    (prs : List (List F × F)) :
    ∃ ws vs, batchOpenLoop pp prs = Except.ok (ws, vs)
      ∧ ws.length = prs.length ∧ vs.length = prs.length
      ∧ ∀ i, i < prs.length →
          pcsOpen pp (prs.getD i ([], 0)).1 (prs.getD i ([], 0)).2
            = Except.ok (ws.getD i 0, vs.getD i 0) := by
  induction prs with
  | nil =>
    refine ⟨[], [], rfl, rfl, rfl, ?_⟩
    intro i h
    simp at h
  | cons pr rest ih =>
    obtain ⟨p, z⟩ := pr
    obtain ⟨ws, vs, hloop, hlw, hlv, hall⟩ := ih
    obtain ⟨W, V, hWV⟩ : ∃ W V, pcsOpen pp p z = Except.ok (W, V) := ⟨_, _, rfl⟩
    refine ⟨W :: ws, V :: vs, ?_, by simp [hlw], by simp [hlv], ?_⟩
    · simp only [batchOpenLoop, hWV, hloop]
    · intro i hi
      cases i with
      | zero => simpa using hWV
      | succ i =>
        simp only [List.getD_cons_succ]
        exact hall i (by simp only [List.length_cons] at hi; omega)

/-- C7: batch_open fails with InvalidParameters when the polynomial and
point lists differ in length; on equal lengths it succeeds and returns, in
input order, exactly the per-pair outputs of open; and its result is
identical for every value of the (never-read) batch commitment argument. -/
theorem kzg_batch_open_behavior (pp : UnivariateProverParam F)
    (mc mc' : List F) (polys : List (List F)) (pts : List F) :
    (polys.length ≠ pts.length → batch_open pp mc polys pts
        = Except.error (PCSError.InvalidParameters
            ("poly length " ++ toString polys.length
              ++ " is different from points length " ++ toString pts.length))) ∧
    (polys.length = pts.length → ∃ ws vs,
        batch_open pp mc polys pts = Except.ok (ws, vs)
        ∧ ws.length = polys.length ∧ vs.length = polys.length
        ∧ ∀ i, i < polys.length →
            pcsOpen pp (polys.getD i []) (pts.getD i 0)
              = Except.ok (ws.getD i 0, vs.getD i 0)) ∧
    batch_open pp mc polys pts = batch_open pp mc' polys pts := by
  refine ⟨?_, ?_, rfl⟩
  · intro h
    simp [batch_open, h]
  · intro h
    obtain ⟨ws, vs, hloop, hlw, hlv, hall⟩ := batchOpenLoop_spec pp (polys.zip pts)
    have hzlen : (polys.zip pts).length = polys.length := by
      simp [List.length_zip, h]
    refine ⟨ws, vs, ?_, by omega, by omega, ?_⟩
    · simp [batch_open, h, hloop]
    · intro i hi
      have := hall i (by omega)
      rwa [zip_getD polys pts i [] 0 hi (by omega)] at this

/-- Witness for C7: mismatched list lengths are refused. -/
theorem kzg_batch_open_behavior_witness :
    batch_open (F := ZMod 101) ⟨[1, 2]⟩ [] [[1, 2], [0, 1]] [5]
      = Except.error (PCSError.InvalidParameters
          "poly length 2 is different from points length 1") :=
  Eq.trans
    ((kzg_batch_open_behavior (F := ZMod 101) ⟨[1, 2]⟩ [] [] [[1, 2], [0, 1]]
      [5]).1 (by decide))
    (by decide)

/-- The i-th commitment returned by a successful batch_commit is the
commitment of the i-th input polynomial. -/
theorem batch_commit_ok_index (pp : UnivariateProverParam F)
    (polys : List (List F)) :
    ∀ cs, batch_commit pp polys = Except.ok cs →
      ∀ i, i < polys.length →
        commit pp (polys.getD i []) = Except.ok (cs.getD i 0) := by
  induction polys with
  | nil => intro cs h i hi; simp at hi
  | cons p polys ih =>
    intro cs h i hi
    simp only [batch_commit] at h
    cases hc : commit pp p with
    | error e => rw [hc] at h; simp at h
    | ok c =>
      rw [hc] at h
      cases hrest : batch_commit pp polys with
      | error e => rw [hrest] at h; simp at h
      | ok cs' =>
        rw [hrest] at h
        simp only [Except.ok.injEq] at h
        subst h
        cases i with
        | zero => simpa using hc
        | succ i =>
          simp only [List.getD_cons_succ]
          exact ih cs' hrest i (by simp only [List.length_cons] at hi; omega)

/-- C8: whenever batch_commit and batch_open succeed on a list of
polynomials (with matching points for batch_open), the i-th returned
commitment is commit of the i-th polynomial and the i-th returned proof and
evaluation are open of the i-th (polynomial, point) pair. -/
theorem kzg_batch_order_preservation (pp : UnivariateProverParam F)
    (mc : List F) (polys : List (List F)) (pts : List F)
    (cs ws vs : List F)
    (hbc : batch_commit pp polys = Except.ok cs)
    (hbo : batch_open pp mc polys pts = Except.ok (ws, vs)) :
    (∀ i, i < polys.length →
        commit pp (polys.getD i []) = Except.ok (cs.getD i 0)) ∧
    (∀ i, i < polys.length →
        pcsOpen pp (polys.getD i []) (pts.getD i 0)
          = Except.ok (ws.getD i 0, vs.getD i 0)) := by
  refine ⟨fun i hi => batch_commit_ok_index pp polys cs hbc i hi, ?_⟩
  have hlen : polys.length = pts.length := by
    by_contra hne
    simp [batch_open, hne] at hbo
  obtain ⟨ws', vs', hloop, hlw, hlv, hall⟩ := batchOpenLoop_spec pp (polys.zip pts)
  have hres : batch_open pp mc polys pts = Except.ok (ws', vs') := by
    simp [batch_open, hlen, hloop]
  rw [hres] at hbo
  simp only [Except.ok.injEq, Prod.mk.injEq] at hbo
  obtain ⟨hw, hv⟩ := hbo
  subst hw
  subst hv
  intro i hi
  have hzlen : (polys.zip pts).length = polys.length := by
    simp [List.length_zip, hlen]
  have := hall i (by omega)
  rwa [zip_getD polys pts i [] 0 hi (by omega)] at this

/-- Witness for C8 with one polynomial 1 + 2X, prover key for τ = 2, point
z = 5: the batch outputs match the single commit (value 5 = τ) and single
open (proof 2, evaluation 11). -/
theorem kzg_batch_order_preservation_witness :
    commit (F := ZMod 101) ⟨[1, 2]⟩ [1, 2] = Except.ok 5 ∧
    pcsOpen (F := ZMod 101) ⟨[1, 2]⟩ [1, 2] 5 = Except.ok (2, 11) := by
  have h := kzg_batch_order_preservation (F := ZMod 101) ⟨[1, 2]⟩ []
    [[1, 2]] [5] [5] [2] [11] (by decide) (by decide)
  exact ⟨by simpa using h.1 0 (by decide), by simpa using h.2 0 (by decide)⟩

/-- C6: evaluation of batch_verify_aggregated at the failing input of an
empty shared values list.  The source computes seq_len - 1 with seq_len = 0,
which underflows usize: a debug build aborts, and under the release
(wrapping) semantics modelled here the materialized randomizer sequence has
length 1 + min(2^64 - 1, stream length) ≥ 1 ≠ 0, so the call returns
InvalidParameters even though zero randomizers are required; the claimed
normal Ok result with a length-0 materialized sequence does not happen. -/
theorem kzg_aggregated_empty_values_bug :
    batch_verify_aggregated (F := ZMod 101) ⟨1, 1, 2⟩ [] [[]] [] [[]] [[]] []
      = Except.error (PCSError.InvalidParameters
          "Insufficient randomizers provided") := by
  decide

/-- C3 counterexample: with one statement (ARITY = 1, combiner 1, singleton
weight-1 commitment accumulator) and an empty randomizer stream,
batch_verify_aggregated succeeds with Ok(true) (it materializes only the
leading randomizer 1), while batch_verify on the same statement and stream
fails with InvalidParameters (its loop draws one randomizer per statement):
the two outcomes are not the same. -/
theorem kzg_aggregated_vs_batch_counterexample :
    batch_verify_aggregated (F := ZMod 101) ⟨1, 1, 2⟩ [⟨[(1, 0)]⟩] [[0]] [0]
        [[0]] [[1]] [] = Except.ok true ∧
    batch_verify (F := ZMod 101) ⟨1, 1, 2⟩ [0] [0] [0] [0] []
      = Except.error (PCSError.InvalidParameters
          "Insufficient randomizers provided") := by
  decide

theorem pairSum_nil : pairSum ([] : List (F × F)) = 0 := rfl

theorem pairSum_append (a b : List (F × F)) :
    pairSum (a ++ b) = pairSum a + pairSum b := by
  simp [pairSum]

theorem pairSum_cons (q : F × F) (l : List (F × F)) :
    pairSum (q :: l) = q.1 * q.2 + pairSum l := by
  simp [pairSum]

theorem bvaProofPairs_cons (r w cb1 : F) (rr ws cbs : List F) :
    bvaProofPairs (r :: rr) (w :: ws) (cb1 :: cbs)
      = (r * cb1, w) :: bvaProofPairs rr ws cbs := by
  simp [bvaProofPairs, zip3]

theorem bvaPointPairs_cons (r z w cb1 : F) (rr zs ws cbs : List F) :
    bvaPointPairs (r :: rr) (z :: zs) (w :: ws) (cb1 :: cbs)
      = (r * cb1 * z, w) :: bvaPointPairs rr zs ws cbs := by
  simp [bvaPointPairs, zip4]

theorem bvaMergePairs_cons (r : F) (sb : ScalarsAndBases F) (rr : List F)
    (mcs : List (ScalarsAndBases F)) :
    bvaMergePairs (r :: rr) (sb :: mcs)
      = sb.pairs.map (fun q => (r * q.1, q.2)) ++ bvaMergePairs rr mcs := by
  simp [bvaMergePairs]

theorem bvaSumEvals_cons (r v : F) (rr vs : List F) :
    bvaSumEvals (r :: rr) (v :: vs) = v * r + bvaSumEvals rr vs := by
  simp [bvaSumEvals]

theorem wsum_take (ss : List (F × F × F × F)) :
    ∀ (rr : List F) (k : Nat), ss.length ≤ k →
      wsum ss (rr.take k) = wsum ss rr := by
  induction ss with
  | nil => intro rr k h; simp [wsum]
  | cons s ss ih =>
    obtain ⟨c, z, v, w⟩ := s
    intro rr k h
    cases rr with
    | nil => simp [wsum]
    | cons r rr =>
      cases k with
      | zero => simp only [List.length_cons] at h; omega
      | succ k =>
        simp only [List.take_succ_cons, wsum]
        rw [ih rr k (by simp only [List.length_cons] at h; omega)]

theorem csum_take (ss : List (F × F × F × F)) :
    ∀ (rr : List F) (k : Nat), ss.length ≤ k →
      csum ss (rr.take k) = csum ss rr := by
  induction ss with
  | nil => intro rr k h; simp [csum]
  | cons s ss ih =>
    obtain ⟨c, z, v, w⟩ := s
    intro rr k h
    cases rr with
    | nil => simp [csum]
    | cons r rr =>
      cases k with
      | zero => simp only [List.length_cons] at h; omega
      | succ k =>
        simp only [List.take_succ_cons, csum]
        rw [ih rr k (by simp only [List.length_cons] at h; omega)]

theorem vsum_take (ss : List (F × F × F × F)) :
    ∀ (rr : List F) (k : Nat), ss.length ≤ k →
      vsum ss (rr.take k) = vsum ss rr := by
  induction ss with
  | nil => intro rr k h; simp [vsum]
  | cons s ss ih =>
    obtain ⟨c, z, v, w⟩ := s
    intro rr k h
    cases rr with
    | nil => simp [vsum]
    | cons r rr =>
      cases k with
      | zero => simp only [List.length_cons] at h; omega
      | succ k =>
        simp only [List.take_succ_cons, vsum]
        rw [ih rr k (by simp only [List.length_cons] at h; omega)]

/-- The three aggregated-verify pipeline sums at ARITY = 1 with all
combiners equal to 1 and singleton weight-1 commitment accumulators coincide
with the three batch_verify accumulator sums over the zipped statements. -/
theorem c3_sums (cs : List F) :
    ∀ (zs vs ws rr : List F) (n : Nat),
      cs.length = n → zs.length = n → vs.length = n → ws.length = n →
      pairSum (bvaProofPairs rr ws (List.replicate n 1))
          = wsum (zip4 cs zs vs ws) rr
      ∧ pairSum (bvaMergePairs rr
            (cs.map (fun c => (⟨[(1, c)]⟩ : ScalarsAndBases F))))
          + pairSum (bvaPointPairs rr zs ws (List.replicate n 1))
          = csum (zip4 cs zs vs ws) rr
      ∧ bvaSumEvals rr vs = vsum (zip4 cs zs vs ws) rr := by
  induction cs with
  | nil =>
    intro zs vs ws rr n h1 h2 h3 h4
    have hn : n = 0 := by simpa using h1.symm
    subst hn
    obtain rfl : zs = [] := List.length_eq_zero.mp h2
    obtain rfl : vs = [] := List.length_eq_zero.mp h3
    obtain rfl : ws = [] := List.length_eq_zero.mp h4
    refine ⟨?_, ?_, ?_⟩ <;>
      simp [bvaProofPairs, bvaPointPairs, bvaMergePairs, bvaSumEvals,
        zip3, zip4, wsum, csum, vsum, pairSum]
  | cons c cs ih =>
    intro zs vs ws rr n h1 h2 h3 h4
    cases n with
    | zero => simp at h1
    | succ n =>
      cases zs with
      | nil => simp at h2
      | cons z zs =>
        cases vs with
        | nil => simp at h3
        | cons v vs =>
          cases ws with
          | nil => simp at h4
          | cons w ws =>
            have h1' : cs.length = n := by
              simp only [List.length_cons] at h1; omega
            have h2' : zs.length = n := by
              simp only [List.length_cons] at h2; omega
            have h3' : vs.length = n := by
              simp only [List.length_cons] at h3; omega
            have h4' : ws.length = n := by
              simp only [List.length_cons] at h4; omega
            cases rr with
            | nil =>
              refine ⟨?_, ?_, ?_⟩ <;>
                simp [bvaProofPairs, bvaPointPairs, bvaMergePairs,
                  bvaSumEvals, zip3, zip4, wsum, csum, vsum, pairSum]
            | cons r rr =>
              obtain ⟨ihw, ihc, ihv⟩ := ih zs vs ws rr n h1' h2' h3' h4'
              refine ⟨?_, ?_, ?_⟩
              · rw [List.replicate_succ, bvaProofPairs_cons, pairSum_cons]
                simp only [zip4, wsum]
                linear_combination ihw
              · rw [List.replicate_succ, List.map_cons, bvaMergePairs_cons,
                  pairSum_append, bvaPointPairs_cons, pairSum_cons]
                simp only [zip4, csum, List.map_cons, List.map_nil,
                  pairSum_cons, pairSum_nil]
                linear_combination ihc
              · rw [bvaSumEvals_cons]
                simp only [zip4, vsum]
                linear_combination ihv

/-- Closed form of batch_verify_aggregated at ARITY = 1: with one pipeline
(points zs, proofs ws, combiners cb) and at least vs.length - 1 supplied
randomizers, the call succeeds and checks the 2-pairing identity built from
the three accumulator sums, with the materialized randomizer sequence
1 :: take (vs.length - 1) of the stream. -/
theorem bva_arity1_eval (vp : UnivariateVerifierParam F)
    (mcs : List (ScalarsAndBases F)) (zs vs ws cb rs : List F)
    (hv1 : 1 ≤ vs.length) (hrlen : vs.length - 1 ≤ rs.length) :
    batch_verify_aggregated vp mcs [zs] vs [ws] [cb] rs
      = Except.ok (decide (
          pairSum (bvaProofPairs ((1 : F) :: rs.take (vs.length - 1)) ws cb)
              * vp.beta_h
            - (pairSum (bvaMergePairs ((1 : F) :: rs.take (vs.length - 1)) mcs)
                + pairSum (bvaPointPairs ((1 : F) :: rs.take (vs.length - 1))
                    zs ws cb)
                - bvaSumEvals ((1 : F) :: rs.take (vs.length - 1)) vs * vp.g)
              * vp.h = 0)) := by
  have hus : usizeSub vs.length 1 = vs.length - 1 := by
    unfold usizeSub
    rw [if_pos hv1]
  have hlen : ((1 : F) :: rs.take (vs.length - 1)).length = vs.length := by
    simp only [List.length_cons, List.length_take]
    omega
  simp only [batch_verify_aggregated, hus]
  rw [if_neg (fun hne => hne hlen)]
  congr 1
  rw [decide_eq_decide]
  simp only [ScalarsAndBases.multi_scalar_mul, multi_pairing,
    List.zip_cons_cons, List.zip_nil_right, List.map_cons, List.map_nil,
    List.flatten_cons, List.flatten_nil, List.append_nil, zip3,
    List.sum_cons, List.sum_nil, pairSum_append, pairSum_cons, pairSum_nil]
  constructor <;> intro hx <;> linear_combination hx

/-- C3 amended: for n ≥ 1 equal-length statements and a randomizer stream
yielding at least n values, batch_verify_aggregated at ARITY = 1 — with the
single pipeline holding the points and proofs, all combiners 1, and
multi_commitment holding each commitment as a singleton weight-1
accumulator — returns the same result as batch_verify on the same
statements with the same stream.  (The claim fails without these bounds:
with a stream of exactly n - 1 values batch_verify errors while the
aggregated variant succeeds, and with n = 0 the aggregated variant errors
while batch_verify succeeds.) -/
theorem kzg_aggregated_reduces_to_batch (vp : UnivariateVerifierParam F)
    (cs zs vs ws rs : List F) (n : Nat) (hn : 1 ≤ n)
    (h1 : cs.length = n) (h2 : zs.length = n) (h3 : vs.length = n)
    (h4 : ws.length = n) (hr : n ≤ rs.length) :
    batch_verify_aggregated vp
        (cs.map (fun c => (⟨[(1, c)]⟩ : ScalarsAndBases F))) [zs] vs [ws]
        [List.replicate n 1] rs
      = batch_verify vp cs zs vs ws rs := by
  have hzlen : (zip4 cs zs vs ws).length = n := by
    rw [zip4_length]
    omega
  have hv1 : 1 ≤ vs.length := by omega
  have hrlen : vs.length - 1 ≤ rs.length := by omega
  rw [bva_arity1_eval vp _ zs vs ws (List.replicate n 1) rs hv1 hrlen]
  unfold batch_verify
  rw [bvLoop_ok (zip4 cs zs vs ws) rs ⟨0, 0, 0, 1⟩ (by omega)]
  have hR : ((1 : F) :: rs.take (vs.length - 1)) = ((1 : F) :: rs).take n := by
    cases n with
    | zero => omega
    | succ m =>
      rw [List.take_succ_cons]
      rw [h3]
      simp
  rw [hR]
  obtain ⟨ihw, ihc, ihv⟩ :=
    c3_sums cs zs vs ws (((1 : F) :: rs).take n) n h1 h2 h3 h4
  rw [ihw, ihc, ihv]
  rw [wsum_take (zip4 cs zs vs ws) ((1 : F) :: rs) n (by omega),
      csum_take (zip4 cs zs vs ws) ((1 : F) :: rs) n (by omega),
      vsum_take (zip4 cs zs vs ws) ((1 : F) :: rs) n (by omega)]
  congr 1
  rw [decide_eq_decide]
  simp only [multi_pairing, List.zip_cons_cons, List.zip_nil_right,
    List.map_cons, List.map_nil, List.sum_cons, List.sum_nil]
  constructor <;> intro hx <;> linear_combination -hx

/-- Witness for the amended C3 at one statement (commitment 3, point 2,
value 4, proof 5) and stream [7] over ZMod 101. -/
theorem kzg_aggregated_reduces_to_batch_witness :
    batch_verify_aggregated (F := ZMod 101) ⟨1, 1, 2⟩
        (([3] : List (ZMod 101)).map
          (fun c => (⟨[(1, c)]⟩ : ScalarsAndBases (ZMod 101)))) [[2]] [4]
        [[5]] [List.replicate 1 1] [7]
      = batch_verify (F := ZMod 101) ⟨1, 1, 2⟩ [3] [2] [4] [5] [7] :=
  kzg_aggregated_reduces_to_batch ⟨1, 1, 2⟩ [3] [2] [4] [5] [7] 1 (by decide)
    (by decide) (by decide) (by decide) (by decide) (by decide)
